import Mathlib

/-!
Verification of the tinykv expiration-aware concurrent store
(src/tinykv.go, heap-based revision, lines 553-888).

The Go code is shallowly embedded as pure state-passing functions:

* `time.Time` / `time.Duration` are modelled as `Int` instants / durations,
  and the current instant `now` is passed explicitly to every operation
  (each Go operation runs under one lock and samples `time.Now()`).
* The mutable `*timeout` descriptors, which are shared by aliasing between
  the table entries and the heap nodes, are modelled as an arena
  `touts : List Timeout` indexed by `Nat` ids; an in-place mutation is a
  `List.set` at the descriptor's id, and pointer identity is id equality.
* `map[string]*entry` is modelled as a function `String → Option (Entry α)`.
* The expiration goroutine's per-tick body (`expireFunc`, `expireLoop`) is
  modelled as pure functions returning the updated state, the returned
  interval and the batch handed to `notifyExpirations`.
-/

set_option maxHeartbeats 1000000

namespace TinyKV

/-- Timeout descriptor, src/tinykv.go lines 564-569: absolute expiry instant,
the requested duration, the sliding flag, and the back-reference to the
owning key. -/
structure Timeout where
  expiresAt : Int
  expiresAfter : Int
  isSliding : Bool
  key : String
  deriving DecidableEq, Inhabited

/-- `newTimeout` (src/tinykv.go lines 571-581): `expiresAt = now + expiresAfter`. -/
def newTimeout (key : String) (expiresAfter : Int) (isSliding : Bool) (now : Int) : Timeout :=
  { expiresAt := now + expiresAfter, expiresAfter := expiresAfter,
    isSliding := isSliding, key := key }

/-- Dereference a descriptor id in the arena.  Ids handed out by `put` are
always in range; the default is never reached from the modelled API. -/
def toutAt (touts : List Timeout) (tid : Nat) : Timeout :=
  (touts[tid]?).getD default

/-- `(*timeout).slide` (src/tinykv.go lines 583-594) on an optional descriptor
id: no-op on a nil descriptor, a non-sliding descriptor, or a non-positive
`expiresAfter`; otherwise the descriptor is renewed in place (the arena cell
is overwritten, so the heap sees the renewal through the shared id). -/
def slide (touts : List Timeout) (tidO : Option Nat) (now : Int) : List Timeout :=
  match tidO with
  | none => touts
  | some tid =>
    match touts[tid]? with
    | none => touts
    | some tmo =>
      if !tmo.isSliding then touts
      else if tmo.expiresAfter ≤ 0 then touts
      else touts.set tid { tmo with expiresAt := now + tmo.expiresAfter }

/-- What `slide` does to the single affected descriptor (used to state
theorems about renewal). -/
def slideOne (tmo : Timeout) (now : Int) : Timeout :=
  if tmo.isSliding ∧ 0 < tmo.expiresAfter then { tmo with expiresAt := now + tmo.expiresAfter }
  else tmo

/-- `(*timeout).expired` (src/tinykv.go lines 596-601) on an optional
descriptor id: `false` for a nil descriptor, else strictly `now > expiresAt`
(Go `time.Now().After(to.expiresAt)`). -/
def expiredB (touts : List Timeout) (tidO : Option Nat) (now : Int) : Bool :=
  match tidO with
  | none => false
  | some tid =>
    match touts[tid]? with
    | none => false
    | some tmo => decide (now > tmo.expiresAt)

/-- `th.Less` (src/tinykv.go line 609): `h[i].expiresAt.After(h[j].expiresAt)`,
i.e. node `a` orders before node `b` iff `a`'s expiry instant is strictly
later. -/
def thLess (touts : List Timeout) (a b : Nat) : Bool :=
  decide ((toutAt touts b).expiresAt < (toutAt touts a).expiresAt)

/-- `th.Swap` (src/tinykv.go line 610). -/
def thSwap (h : List Nat) (i j : Nat) : List Nat :=
  (h.set i (h.getD j 0)).set j (h.getD i 0)

/-- Modelled from the spec: the repository's generated timeheap code
(`timeheapPush`/`timeheapPop`, called at src/tinykv.go lines 746, 828, 838)
is not under src/; per spec sections 4.2 and 9 it is a plain binary-heap
container over the source's `th` interface (`Len`/`Less`/`Swap`/`Push`/`Pop`,
src/tinykv.go lines 606-618), i.e. Go's `container/heap` sift-up.  The
recursion is structural on a fuel argument; callers pass `fuel = i`, which
makes the fuel-0 case (`i = 0`) agree with the algorithm's own stopping
condition. -/
def up (touts : List Timeout) : Nat → List Nat → Nat → List Nat
  | 0, h, _ => h
  | fuel + 1, h, i =>
    if i = 0 then h
    else
      let j := (i - 1) / 2
      if thLess touts (h.getD i 0) (h.getD j 0) then up touts fuel (thSwap h i j) j
      else h

/-- Modelled from the spec: `container/heap` sift-down of the generated
timeheap code (see `up`).  Callers pass `fuel = n`; since a step requires
`2*i+1 < n` and moves `i` past `2*i+1`, fuel `n` never runs out before the
algorithm's own stopping condition. -/
def down (touts : List Timeout) : Nat → List Nat → Nat → Nat → List Nat
  | 0, h, _, _ => h
  | fuel + 1, h, i, n =>
    let j1 := 2 * i + 1
    if j1 < n then
      let j :=
        if j1 + 1 < n then
          if thLess touts (h.getD (j1 + 1) 0) (h.getD j1 0) then j1 + 1 else j1
        else j1
      if thLess touts (h.getD j 0) (h.getD i 0) then down touts fuel (thSwap h i j) j n
      else h
    else h

/-- Modelled from the spec: generated `timeheapPush` = `heap.Push`: append the
new node id, then sift it up from the last position. -/
def timeheapPush (touts : List Timeout) (h : List Nat) (x : Nat) : List Nat :=
  up touts h.length (h ++ [x]) h.length

/-- Modelled from the spec: generated `timeheapPop` = `heap.Pop`: swap the
root with the last slot, sift the new root down over the first `n-1` slots,
and return the old root together with the first `n-1` slots. -/
def timeheapPop (touts : List Timeout) (h : List Nat) : Nat × List Nat :=
  let n := h.length - 1
  (h.getD 0 0, (down touts n (thSwap h 0 n) 0 n).take n)

/-- Table entry (src/tinykv.go lines 622-625): embedded optional descriptor
(here: its arena id) and the uninspected payload value. -/
structure Entry (α : Type) where
  timeout : Option Nat
  value : α
  deriving DecidableEq

/-- The whole mutable state of a `store` (src/tinykv.go lines 672-682):
the table, the timeout heap (a list of descriptor ids, index 0 = root),
and the descriptor arena backing the shared `*timeout` pointers. -/
structure Store (α : Type) where
  kv : String → Option (Entry α)
  heap : List Nat
  touts : List Timeout

/-- A fresh store: empty table and empty heap (src/tinykv.go lines 685-700). -/
def empty (α : Type) : Store α :=
  { kv := fun _ => none, heap := [], touts := [] }

/-- `putOpt` (src/tinykv.go lines 640-644), zero value as in Go. -/
structure PutOpt (α : Type) where
  expiresAfter : Int := 0
  isSliding : Bool := false
  cas : Option (Option α → Bool → Bool) := none

/-- `PutOption` (src/tinykv.go line 647). -/
def PutOption (α : Type) : Type := PutOpt α → PutOpt α

/-- `ExpiresAfter` option (src/tinykv.go lines 650-654). -/
def ExpiresAfter {α : Type} (d : Int) : PutOption α :=
  fun o => { o with expiresAfter := d }

/-- `IsSliding` option (src/tinykv.go lines 657-661). -/
def IsSliding {α : Type} (b : Bool) : PutOption α :=
  fun o => { o with isSliding := b }

/-- `CAS` option (src/tinykv.go lines 664-668). -/
def CAS {α : Type} (p : Option α → Bool → Bool) : PutOption α :=
  fun o => { o with cas := some p }

/-- Folding the variadic options over the zero `putOpt`
(src/tinykv.go lines 735-738). -/
def foldOpts {α : Type} (opts : List (PutOption α)) : PutOpt α :=
  opts.foldl (fun o f => f o) {}

/-- The only error of this revision (src/tinykv.go line 876). -/
inductive KvErr where
  | casCond
  deriving DecidableEq

/-- Map update `kv.kv[k] = e`. -/
def mupdate {α : Type} (m : String → Option (Entry α)) (k : String) (e : Entry α) :
    String → Option (Entry α) :=
  fun q => if q = k then some e else m q

/-- Map deletion `delete(kv.kv, k)`. -/
def merase {α : Type} (m : String → Option (Entry α)) (k : String) :
    String → Option (Entry α) :=
  fun q => if q = k then none else m q

/-- `store.cas` (src/tinykv.go lines 755-771).  The Go `ok && old != nil`
test degenerates to presence: this map never stores a nil `*entry`. -/
def casStep {α : Type} (s : Store α) (k : String) (e : Entry α)
    (pred : Option α → Bool → Bool) (now : Int) : Except KvErr Unit × Store α :=
  let old := s.kv k
  let oldValue : Option α := old.map Entry.value
  let found := old.isSome
  if !pred oldValue found then (Except.error KvErr.casCond, s)
  else
    match old with
    | some o =>
      (Except.ok (),
        { s with
          touts := slide s.touts o.timeout now,
          kv := mupdate s.kv k { timeout := o.timeout, value := e.value } })
    | none => (Except.ok (), { s with kv := mupdate s.kv k e })

/-- `store.Put` (src/tinykv.go lines 734-753): fold the options; when a
positive `ExpiresAfter` was given, allocate a fresh descriptor and push its
id onto the heap (before and independently of any CAS); then either delegate
to `store.cas` or overwrite the table entry unconditionally. -/
def put {α : Type} (s : Store α) (k : String) (v : α) (opts : List (PutOption α))
    (now : Int) : Except KvErr Unit × Store α :=
  let opt := foldOpts opts
  let s1 :=
    if 0 < opt.expiresAfter then
      let touts2 := s.touts ++ [newTimeout k opt.expiresAfter opt.isSliding now]
      { s with touts := touts2, heap := timeheapPush touts2 s.heap s.touts.length }
    else s
  let e : Entry α :=
    { timeout := if 0 < opt.expiresAfter then some s.touts.length else none, value := v }
  match opt.cas with
  | some pred => casStep s1 k e pred now
  | none => (Except.ok (), { s1 with kv := mupdate s1.kv k e })

/-- `store.Get` (src/tinykv.go lines 716-731): look up, `slide` the
descriptor (unconditionally, before the expiry test), then test `expired`;
an expired entry is deleted, handed to the asynchronous notification (the
returned batch) and reported as a miss. -/
def get {α : Type} (s : Store α) (k : String) (now : Int) :
    (Option α × Bool) × Store α × List (String × α) :=
  match s.kv k with
  | none => ((none, false), s, [])
  | some e =>
    let touts2 := slide s.touts e.timeout now
    if expiredB touts2 e.timeout now then
      ((none, false), { s with touts := touts2, kv := merase s.kv k }, [(k, e.value)])
    else
      ((some e.value, true), { s with touts := touts2 }, [])

/-- `store.Delete` (src/tinykv.go lines 708-712): only the table is touched;
heap nodes for the key stay behind. -/
def del {α : Type} (s : Store α) (k : String) : Store α :=
  { s with kv := merase s.kv k }

/-- `store.Take` (src/tinykv.go lines 774-783): read and remove in one step,
with no expiry test; the empty third component records that no notification
batch is produced. -/
def take {α : Type} (s : Store α) (k : String) :
    (Option α × Bool) × Store α × List (String × α) :=
  match s.kv k with
  | some e => ((some e.value, true), { s with kv := merase s.kv k }, [])
  | none => ((none, false), s, [])

/-- Go map assignment `expired[k] = v` on the batch built by `expireFunc`:
overwrite the existing key or append. -/
def upsert {α : Type} (l : List (String × α)) (k : String) (v : α) : List (String × α) :=
  match l with
  | [] => [(k, v)]
  | (k0, v0) :: t => if k0 = k then (k0, v) :: t else (k0, v0) :: upsert t k v

/-- The drain loop of `store.expireFunc` (src/tinykv.go lines 815-842):
repeatedly inspect the heap root (`kv.heap[0]`).  Break when the heap is
empty or the iteration counter `c` has reached the current heap length.  If
the root's key is absent from the table, pop and continue.  If the live
table entry's slot is present and the root descriptor is not expired, record
the remaining time as the wake hint and break.  Otherwise pop and record
`(key, current table value)` in the expired batch.  The fourth component
counts loop-body iterations.  Recursion is structural on fuel; callers pass
`fuel = h.length`, which is maintained by popping, so the fuel-0 case
(`h.length = 0`) agrees with the loop's own first break condition. -/
def expireDrain {α : Type} (touts : List Timeout) (kv : String → Option (Entry α)) :
    Nat → List Nat → List (String × α) → Nat → Int →
      List Nat × List (String × α) × Int × Nat
  | 0, h, expd, _, _ => (h, expd, 0, 0)
  | fuel + 1, h, expd, c, now =>
    if h.length = 0 then (h, expd, 0, 0)
    else if h.length ≤ c then (h, expd, 0, 0)
    else
      let lastT := toutAt touts (h.getD 0 0)
      match kv lastT.key with
      | none =>
        let r := expireDrain touts kv fuel (timeheapPop touts h).2 expd (c + 1) now
        (r.1, r.2.1, r.2.2.1, r.2.2.2 + 1)
      | some e =>
        if now > lastT.expiresAt then
          let p := timeheapPop touts h
          let r := expireDrain touts kv fuel p.2 (upsert expd (toutAt touts p.1).key e.value)
            (c + 1) now
          (r.1, r.2.1, r.2.2.1, r.2.2.2 + 1)
        else
          (h, expd,
            if lastT.expiresAt - now < 0 then lastT.expiresAfter else lastT.expiresAt - now, 1)

/-- Result of one scheduler tick body: the updated store, the returned
interval hint, the batch handed to `notifyExpirations`, and the number of
drain-loop iterations performed. -/
structure ExpireOut (α : Type) where
  store : Store α
  interval : Int
  batch : List (String × α)
  iters : Nat

/-- `store.expireFunc` (src/tinykv.go lines 807-855): early return on an
empty heap; otherwise drain, delete every batched key from the table, hand
the batch to the asynchronous notifier, and, when the drain produced a zero
hint while nodes remain, recompute the hint from the node in the final array
slot `kv.heap[len-1]`. -/
def expireFunc {α : Type} (s : Store α) (now : Int) : ExpireOut α :=
  if s.heap.length = 0 then ⟨s, 0, [], 0⟩
  else
    let r := expireDrain s.touts s.kv s.heap.length s.heap [] 0 now
    let h2 := r.1
    let expd := r.2.1
    let iv := r.2.2.1
    let kv2 := expd.foldl (fun m p => merase m p.1) s.kv
    let iv2 :=
      if iv = 0 ∧ h2.length ≠ 0 then
        let lastT := toutAt s.touts (h2.getD (h2.length - 1) 0)
        if lastT.expiresAt - now < 0 then lastT.expiresAfter else lastT.expiresAt - now
      else iv
    ⟨{ s with heap := h2, kv := kv2 }, iv2, expd, r.2.2.2⟩

/-- The interval update of `store.expireLoop` (src/tinykv.go lines 787-805):
`v` is negated if negative, and the loop-persistent interval variable is
overwritten only when `0 < v` and `v` is below the configured base
expiration interval; otherwise it keeps its previous value. -/
def nextInterval (base old v : Int) : Int :=
  let w := if v < 0 then -v else v
  if 0 < w ∧ w < base then w else old

/-- One full tick of `store.expireLoop`: run `expireFunc`, then update the
sleep interval from its returned hint. -/
def expireLoopTick {α : Type} (s : Store α) (base old now : Int) : ExpireOut α × Int :=
  let r := expireFunc s now
  (r, nextInterval base old r.interval)


/-- Concrete descriptor arena used to exercise the heap ordering: two
non-sliding descriptors expiring at instants 1 and 2. -/
def toutsC3 : List Timeout := [⟨1, 1, false, "x"⟩, ⟨2, 2, false, "y"⟩]

/-- Concrete store with a single sliding entry `"a" ↦ 1` whose descriptor
(10-unit TTL) expired at instant 10. -/
def sC1 : Store Int :=
  { kv := fun q => if q = "a" then some ⟨some 0, 1⟩ else none
    heap := [0]
    touts := [⟨10, 10, true, "a"⟩] }

/-- Concrete store reached by `Put("a",1,ExpiresAfter(10))` at instant 0
followed by a plain `Put("a",2)` (no options) at instant 0: the table entry
for `"a"` has no descriptor, while the heap still holds the first put's
descriptor. -/
def sC2 : Store Int :=
  (put (put (empty Int) "a" 1 [ExpiresAfter 10] 0).2 "a" 2 [] 0).2

/-- Concrete store whose single heap node refers to a key absent from the
table. -/
def sC2w : Store Int :=
  { kv := fun _ => none
    heap := [0]
    touts := [⟨1, 1, false, "gone"⟩] }

/-- Concrete store with a sliding entry `"a" ↦ 1` under a live 10-unit TTL
descriptor. -/
def sC4 : Store Int :=
  { kv := fun q => if q = "a" then some ⟨some 0, 1⟩ else none
    heap := [0]
    touts := [⟨10, 10, true, "a"⟩] }

/-- Concrete store with a non-sliding entry `"a" ↦ 1` under a 10-unit TTL
descriptor. -/
def sC5 : Store Int :=
  { kv := fun q => if q = "a" then some ⟨some 0, 1⟩ else none
    heap := [0]
    touts := [⟨10, 10, false, "a"⟩] }

/-- Concrete store reached by putting `"k1"` and `"k2"` with 10-unit TTLs at
instant 0 and then deleting both keys: the heap keeps two stale nodes. -/
def sC7 : Store Int :=
  del (del (put (put (empty Int) "k1" 1 [ExpiresAfter 10] 0).2
    "k2" 2 [ExpiresAfter 10] 0).2 "k1") "k2"

/-- Concrete store with a live entry `"a" ↦ 1` whose descriptor expires at
instant 50. -/
def sC7w : Store Int :=
  { kv := fun q => if q = "a" then some ⟨some 0, 1⟩ else none
    heap := [0]
    touts := [⟨50, 50, false, "a"⟩] }

/-- Concrete store with an entry `"a" ↦ 7` whose descriptor expired at
instant 5. -/
def sC8 : Store Int :=
  { kv := fun q => if q = "a" then some ⟨some 0, 7⟩ else none
    heap := [0]
    touts := [⟨5, 5, false, "a"⟩] }

/-- Concrete store with an entry `"a" ↦ 1` under a 10-unit TTL descriptor. -/
def sC9 : Store Int :=
  { kv := fun q => if q = "a" then some ⟨some 0, 1⟩ else none
    heap := [0]
    touts := [⟨10, 10, false, "a"⟩] }

/-- Length of `th.Swap` output. -/
theorem thSwap_length (h : List Nat) (i j : Nat) : (thSwap h i j).length = h.length := by
  simp [thSwap]

/-- `up` permutes in place, so it preserves the length. -/
theorem up_length (touts : List Timeout) :
    ∀ (fuel : Nat) (h : List Nat) (i : Nat), (up touts fuel h i).length = h.length := by
  intro fuel
  induction fuel with
  | zero => intro h i; rfl
  | succ fuel ih =>
    intro h i
    rw [up]
    dsimp only
    repeat' split
    all_goals simp [ih, thSwap_length]

/-- `down` permutes in place, so it preserves the length. -/
theorem down_length (touts : List Timeout) :
    ∀ (fuel : Nat) (h : List Nat) (i n : Nat), (down touts fuel h i n).length = h.length := by
  intro fuel
  induction fuel with
  | zero => intro h i n; rfl
  | succ fuel ih =>
    intro h i n
    rw [down]
    dsimp only
    repeat' split
    all_goals simp [ih, thSwap_length]

/-- Pushing adds exactly one node. -/
theorem timeheapPush_length (touts : List Timeout) (h : List Nat) (x : Nat) :
    (timeheapPush touts h x).length = h.length + 1 := by
  simp [timeheapPush, up_length]

/-- Popping a non-empty heap removes exactly one node. -/
theorem timeheapPop_length (touts : List Timeout) (h : List Nat) (_hne : h.length ≠ 0) :
    (timeheapPop touts h).2.length = h.length - 1 := by
  simp only [timeheapPop, List.length_take, down_length, thSwap_length]
  omega

/-- Index view of `th.Swap`: position `j` holds the old `i`-entry, position
`i` the old `j`-entry, everything else is untouched. -/
theorem getElem?_thSwap (h : List Nat) (i j k : Nat) (hi : i < h.length) (hj : j < h.length) :
    (thSwap h i j)[k]? = if j = k then h[i]? else if i = k then h[j]? else h[k]? := by
  have hgi : h[i]? = some (h.getD i 0) := by
    rw [List.getD_eq_getElem?_getD, List.getElem?_eq_getElem hi]; rfl
  have hgj : h[j]? = some (h.getD j 0) := by
    rw [List.getD_eq_getElem?_getD, List.getElem?_eq_getElem hj]; rfl
  simp only [thSwap, List.getElem?_set, List.length_set]
  by_cases hjk : j = k
  · subst hjk
    rw [if_pos rfl, if_pos rfl, if_pos hj]
    exact hgi.symm
  · rw [if_neg hjk, if_neg hjk]
    by_cases hik : i = k
    · subst hik
      rw [if_pos rfl, if_pos rfl, if_pos hi]
      exact hgj.symm
    · rw [if_neg hik, if_neg hik]

/-- `th.Swap` at in-range positions preserves membership. -/
theorem mem_thSwap (h : List Nat) (i j a : Nat) (hi : i < h.length) (hj : j < h.length) :
    a ∈ thSwap h i j ↔ a ∈ h := by
  simp only [List.mem_iff_getElem?]
  constructor
  · rintro ⟨n, hn⟩
    rw [getElem?_thSwap h i j n hi hj] at hn
    split_ifs at hn
    · exact ⟨i, hn⟩
    · exact ⟨j, hn⟩
    · exact ⟨n, hn⟩
  · rintro ⟨n, hn⟩
    by_cases hnj : n = j
    · exact ⟨i, by rw [getElem?_thSwap h i j i hi hj]; subst hnj; split_ifs <;> simp_all⟩
    · by_cases hni : n = i
      · exact ⟨j, by rw [getElem?_thSwap h i j j hi hj]; subst hni; simp_all⟩
      · refine ⟨n, ?_⟩
        rw [getElem?_thSwap h i j n hi hj]
        rw [if_neg (by omega), if_neg (by omega)]
        exact hn

/-- Sifting up only swaps, so it preserves membership. -/
theorem mem_up (touts : List Timeout) :
    ∀ (fuel : Nat) (h : List Nat) (i a : Nat), i < h.length →
      (a ∈ up touts fuel h i ↔ a ∈ h) := by
  intro fuel
  induction fuel with
  | zero => intro h i a _; exact Iff.rfl
  | succ fuel ih =>
    intro h i a hi
    rw [up]
    dsimp only
    split
    · exact Iff.rfl
    · have hj : (i - 1) / 2 < i :=
        Nat.lt_of_le_of_lt (Nat.div_le_self _ 2) (by omega)
      split
      · rw [ih (thSwap h i ((i - 1) / 2)) ((i - 1) / 2) a (by rw [thSwap_length]; omega)]
        exact mem_thSwap h i ((i - 1) / 2) a hi (by omega)
      · exact Iff.rfl

/-- Sifting down only swaps, so it preserves membership. -/
theorem mem_down (touts : List Timeout) :
    ∀ (fuel : Nat) (h : List Nat) (i n a : Nat), n ≤ h.length →
      (a ∈ down touts fuel h i n ↔ a ∈ h) := by
  intro fuel
  induction fuel with
  | zero => intro h i n a _; exact Iff.rfl
  | succ fuel ih =>
    intro h i n a hn
    rw [down]
    dsimp only
    repeat' split
    all_goals try exact Iff.rfl
    all_goals
      rw [ih _ _ _ _ (by rw [thSwap_length]; omega)]
    all_goals
      exact mem_thSwap _ _ _ _ (by omega) (by omega)

/-- Every node of a popped heap was a node of the original heap. -/
theorem mem_timeheapPop (touts : List Timeout) (h : List Nat) (a : Nat)
    (hne : h.length ≠ 0) (ha : a ∈ (timeheapPop touts h).2) : a ∈ h := by
  simp only [timeheapPop] at ha
  have h1 : a ∈ down touts (h.length - 1) (thSwap h 0 (h.length - 1)) 0 (h.length - 1) :=
    (List.take_sublist _ _).mem ha
  rw [mem_down touts _ _ _ _ _ (by rw [thSwap_length]; omega)] at h1
  exact (mem_thSwap h 0 (h.length - 1) a (by omega) (by omega)).mp h1

/-- The pushed node is a node of the resulting heap. -/
theorem self_mem_timeheapPush (touts : List Timeout) (h : List Nat) (x : Nat) :
    x ∈ timeheapPush touts h x := by
  unfold timeheapPush
  rw [mem_up touts h.length (h ++ [x]) h.length x (by simp)]
  simp

/-- The first break guard of the drain loop (`h.getD 0 0` is the root). -/
theorem getD_zero_mem (h : List Nat) (hne : h.length ≠ 0) : h.getD 0 0 ∈ h := by
  cases h with
  | nil => simp at hne
  | cons a t => simp [List.getD]

/-- The drain loop performs at most `h.length - c` body iterations: each
body iteration either pops a node (shrinking the heap while the counter
grows) or is the last one. -/
theorem expireDrain_iters {α : Type} (touts : List Timeout)
    (kv : String → Option (Entry α)) (now : Int) :
    ∀ (fuel : Nat) (h : List Nat) (expd : List (String × α)) (c : Nat),
      h.length ≤ fuel →
      (expireDrain touts kv fuel h expd c now).2.2.2 ≤ h.length - c := by
  intro fuel
  induction fuel with
  | zero => intro h expd c _; simp [expireDrain]
  | succ fuel ih =>
    intro h expd c hf
    rw [expireDrain]
    dsimp only
    split
    · simp
    · split
      · simp
      · split
        · have hlen := timeheapPop_length touts h (by omega)
          have hrec := ih (timeheapPop touts h).2 expd (c + 1) (by omega)
          dsimp only
          omega
        · rename_i e heq
          split
          · have hlen := timeheapPop_length touts h (by omega)
            have hrec := ih (timeheapPop touts h).2
              (upsert expd (toutAt touts (timeheapPop touts h).1).key e.value) (c + 1) (by omega)
            dsimp only
            omega
          · dsimp only
            omega

/-- If every node of the heap refers to a key absent from the table, the
drain loop records no expired entry. -/
theorem expireDrain_absent {α : Type} (touts : List Timeout)
    (kv : String → Option (Entry α)) (now : Int) :
    ∀ (fuel : Nat) (h : List Nat) (expd : List (String × α)) (c : Nat),
      h.length ≤ fuel →
      (∀ tid ∈ h, kv (toutAt touts tid).key = none) →
      (expireDrain touts kv fuel h expd c now).2.1 = expd := by
  intro fuel
  induction fuel with
  | zero => intro h expd c _ _; simp [expireDrain]
  | succ fuel ih =>
    intro h expd c hf habs
    rw [expireDrain]
    dsimp only
    split
    · rfl
    · split
      · rfl
      · split
        · dsimp only
          exact ih (timeheapPop touts h).2 expd (c + 1)
            (by have := timeheapPop_length touts h (by omega); omega)
            (fun tid ht => habs tid (mem_timeheapPop touts h tid (by omega) ht))
        · rename_i e heq
          exact absurd heq (by rw [habs (h.getD 0 0) (getD_zero_mem h (by omega))]; simp)

/-- Appending to the arena does not move existing descriptors. -/
theorem toutAt_append (touts l : List Timeout) (tid : Nat) (h : tid < touts.length) :
    toutAt (touts ++ l) tid = toutAt touts tid := by
  simp only [toutAt, List.getElem?_append, if_pos h]

/-- `slide` at an in-range descriptor id rewrites exactly that cell to
`slideOne` of its old content. -/
theorem slide_getElem (touts : List Timeout) (tid : Nat) (now : Int)
    (h : tid < touts.length) :
    (slide touts (some tid) now)[tid]? = some (slideOne (toutAt touts tid) now) := by
  have hg : touts[tid]? = some touts[tid] := List.getElem?_eq_getElem h
  have ha : toutAt touts tid = touts[tid] := by rw [toutAt, hg]; rfl
  rw [ha]
  cases hs : touts[tid].isSliding with
  | false =>
    have hid : slide touts (some tid) now = touts := by simp [slide, hg, hs]
    rw [hid, hg]
    simp only [slideOne]
    rw [if_neg (by simp [hs])]
  | true =>
    by_cases hp : touts[tid].expiresAfter ≤ 0
    · have hid : slide touts (some tid) now = touts := by simp [slide, hg, hs, hp]
      rw [hid, hg]
      simp only [slideOne]
      rw [if_neg (by simp [hs]; omega)]
    · have h2 : slide touts (some tid) now
          = touts.set tid { touts[tid] with expiresAt := now + touts[tid].expiresAfter } := by
        simp [slide, hg, hs, hp]
      rw [h2, List.getElem?_set, if_pos rfl, if_pos h]
      simp only [slideOne]
      rw [if_pos ⟨hs, by omega⟩]

/-- CAS with a rejecting predicate returns the CAS-condition error and the
untouched store. -/
theorem casStep_fail {α : Type} (s : Store α) (k : String) (e : Entry α)
    (pred : Option α → Bool → Bool) (now : Int)
    (hp : pred ((s.kv k).map Entry.value) (s.kv k).isSome = false) :
    casStep s k e pred now = (Except.error KvErr.casCond, s) := by
  simp [casStep, hp]

/-- CAS on a present key with an accepting predicate: the existing entry
keeps its descriptor (same arena id), which is slid, and only its value is
replaced. -/
theorem casStep_found {α : Type} (s : Store α) (k : String) (e : Entry α)
    (pred : Option α → Bool → Bool) (now : Int) (o : Entry α)
    (hk : s.kv k = some o) (hp : pred (some o.value) true = true) :
    casStep s k e pred now =
      (Except.ok (),
        { s with
          touts := slide s.touts o.timeout now,
          kv := mupdate s.kv k { timeout := o.timeout, value := e.value } }) := by
  simp [casStep, hk, hp]

/-- CAS on an absent key with an accepting predicate stores the fresh entry
as built by `put`. -/
theorem casStep_absent {α : Type} (s : Store α) (k : String) (e : Entry α)
    (pred : Option α → Bool → Bool) (now : Int)
    (hk : s.kv k = none) (hp : pred none false = true) :
    casStep s k e pred now = (Except.ok (), { s with kv := mupdate s.kv k e }) := by
  simp [casStep, hk, hp]

/-- Constructor form of `casStep_fail`, for rewriting when the store is a
record literal. -/
theorem casStep_fail2 {α : Type} (kvm : String → Option (Entry α)) (hp2 : List Nat)
    (ts : List Timeout) (k : String) (e : Entry α)
    (pred : Option α → Bool → Bool) (now : Int)
    (hp : pred ((kvm k).map Entry.value) (kvm k).isSome = false) :
    casStep ⟨kvm, hp2, ts⟩ k e pred now = (Except.error KvErr.casCond, ⟨kvm, hp2, ts⟩) :=
  casStep_fail ⟨kvm, hp2, ts⟩ k e pred now hp

/-- Constructor form of `casStep_found`, for rewriting when the store is a
record literal. -/
theorem casStep_found2 {α : Type} (kvm : String → Option (Entry α)) (hp2 : List Nat)
    (ts : List Timeout) (k : String) (e : Entry α)
    (pred : Option α → Bool → Bool) (now : Int) (o : Entry α)
    (hk : kvm k = some o) (hp : pred (some o.value) true = true) :
    casStep ⟨kvm, hp2, ts⟩ k e pred now =
      (Except.ok (),
        ⟨mupdate kvm k { timeout := o.timeout, value := e.value }, hp2,
          slide ts o.timeout now⟩) :=
  casStep_found ⟨kvm, hp2, ts⟩ k e pred now o hk hp

/-- Constructor form of `casStep_absent`, for rewriting when the store is a
record literal. -/
theorem casStep_absent2 {α : Type} (kvm : String → Option (Entry α)) (hp2 : List Nat)
    (ts : List Timeout) (k : String) (e : Entry α)
    (pred : Option α → Bool → Bool) (now : Int)
    (hk : kvm k = none) (hp : pred none false = true) :
    casStep ⟨kvm, hp2, ts⟩ k e pred now = (Except.ok (), ⟨mupdate kvm k e, hp2, ts⟩) :=
  casStep_absent ⟨kvm, hp2, ts⟩ k e pred now hk hp

/-- `casStep` never touches the heap. -/
theorem casStep_heap {α : Type} (s : Store α) (k : String) (e : Entry α)
    (pred : Option α → Bool → Bool) (now : Int) :
    (casStep s k e pred now).2.heap = s.heap := by
  unfold casStep
  dsimp only
  split
  · rfl
  · split <;> rfl

/-- `put` with a CAS option delegates to `store.cas` after (possibly)
allocating and pushing the fresh descriptor. -/
theorem put_cas {α : Type} (s : Store α) (k : String) (v : α)
    (opts : List (PutOption α)) (now : Int) (pred : Option α → Bool → Bool)
    (hc : (foldOpts opts).cas = some pred) :
    put s k v opts now =
      casStep
        (if 0 < (foldOpts opts).expiresAfter then
          { s with
            touts := s.touts ++
              [newTimeout k (foldOpts opts).expiresAfter (foldOpts opts).isSliding now],
            heap := timeheapPush
              (s.touts ++
                [newTimeout k (foldOpts opts).expiresAfter (foldOpts opts).isSliding now])
              s.heap s.touts.length }
        else s)
        k ⟨if 0 < (foldOpts opts).expiresAfter then some s.touts.length else none, v⟩
        pred now := by
  simp only [put, hc]

/-- C3: the claim states that the timeout priority structure is a min-heap
ordered by `expiresAt` ascending, so that the root yielded by peek/pop has
an `expiresAt` less than or equal to every other descriptor's.  On the code
this fails: `th.Less` (src/tinykv.go line 609) uses `After`, so the binary
heap places the LATEST expiry at the root.  Pushing descriptor 0 (expiry 1)
and then descriptor 1 (expiry 2) yields the heap `[1, 0]`: the root is
descriptor 1 with expiry 2, strictly greater than the expiry 1 of the only
other node. -/
theorem C3_root_is_latest_expiry :
    timeheapPush toutsC3 (timeheapPush toutsC3 [] 0) 1 = [1, 0] ∧
    (toutAt toutsC3 ((timeheapPush toutsC3 (timeheapPush toutsC3 [] 0) 1).getD 0 0)).expiresAt = 2 ∧
    (toutAt toutsC3 ((timeheapPush toutsC3 (timeheapPush toutsC3 [] 0) 1).getD 1 0)).expiresAt = 1 ∧
    ¬ (toutAt toutsC3 ((timeheapPush toutsC3 (timeheapPush toutsC3 [] 0) 1).getD 0 0)).expiresAt
        ≤ (toutAt toutsC3 ((timeheapPush toutsC3 (timeheapPush toutsC3 [] 0) 1).getD 1 0)).expiresAt := by
  decide

/-- C8: `Take` on a present key returns the entry's value with found=true,
removes the entry (so a subsequent `Get` misses for every instant), leaves
every other key, the heap and the arena untouched, produces no notification
batch, and performs no expiry test (the hypothesis places no constraint on
the entry's descriptor, which may be expired); on an absent key `Take`
returns `(none, false)` and changes nothing. -/
theorem C8_take_removes {α : Type} (s : Store α) (k : String) (e : Entry α)
    (hk : s.kv k = some e) :
    (take s k).1 = (some e.value, true) ∧
    (take s k).2.1.kv k = none ∧
    (∀ q, q ≠ k → (take s k).2.1.kv q = s.kv q) ∧
    (take s k).2.1.heap = s.heap ∧
    (take s k).2.1.touts = s.touts ∧
    (take s k).2.2 = [] ∧
    (∀ now : Int, (get (take s k).2.1 k now).1 = (none, false)) ∧
    (∀ (s2 : Store α) (k2 : String), s2.kv k2 = none →
      take s2 k2 = ((none, false), s2, [])) := by
  have hkv : (take s k).2.1.kv k = none := by
    simp [take, hk, merase]
  refine ⟨by simp [take, hk], hkv, ?_, by simp [take, hk], by simp [take, hk],
    by simp [take, hk], ?_, ?_⟩
  · intro q hq
    simp [take, hk, merase, hq]
  · intro now
    simp [get, hkv]
  · intro s2 k2 h2
    simp [take, h2]

/-- Witness for C8 at a concrete input: the entry's descriptor is already
expired at instant 10, yet `Take` returns it, removes it silently, and the
subsequent `Get` misses. -/
theorem C8_take_removes_witness :
    (take sC8 "a").1 = (some 7, true) ∧ (take sC8 "a").2.2 = [] ∧
    (get (take sC8 "a").2.1 "a" 10).1 = (none, false) := by
  have h := C8_take_removes sC8 "a" ⟨some 0, 7⟩ rfl
  exact ⟨h.1, h.2.2.2.2.2.1, h.2.2.2.2.2.2.1 10⟩

/-- C10: the per-tick drain loop of the scheduler terminates on every table
and heap state (the model is a total function), and the number of loop-body
iterations it performs — counted in the fourth component of the result — is
at most the heap's initial length, enforced by the counter `c` checked
against the current heap length. -/
theorem C10_drain_iterations_bounded {α : Type} (s : Store α) (now : Int) :
    (expireFunc s now).iters ≤ s.heap.length := by
  unfold expireFunc
  split
  · simp
  · dsimp only
    have h := expireDrain_iters s.touts s.kv now s.heap.length s.heap [] 0 (le_refl _)
    omega

/-- C1 counterexample: in `sC1` the table holds `"a"` with a SLIDING
descriptor that is expired at call time (`20 > 10`).  The claim says `Get`
must remove the entry, schedule a notification, return not-found, and never
renew an expired descriptor.  The code slides BEFORE the expiry test
(src/tinykv.go line 724), so this call returns the value as a found hit,
keeps the entry, renews the descriptor to expire at 30, and schedules
nothing. -/
theorem C1_counterexample :
    (get sC1 "a" 20).1 = (some 1, true) ∧
    (get sC1 "a" 20).2.1.kv "a" = some ⟨some 0, 1⟩ ∧
    (get sC1 "a" 20).2.1.touts = [⟨30, 10, true, "a"⟩] ∧
    (get sC1 "a" 20).2.2 = [] := by
  decide

/-- C1 (amended): `Get` slides first and tests expiry afterwards.  For an
entry whose descriptor is expired at call time: if the descriptor is sliding
with positive `expiresAfter`, the slide renews it and `Get` returns the
value as a found hit, keeping the entry and scheduling no notification —
i.e. renewal DOES happen on an entry that is already expired when `Get`
begins; only if the descriptor is non-sliding (or has non-positive
`expiresAfter`) does `Get` remove the entry, schedule the asynchronous
notification carrying the removed key and value, and return not-found. -/
theorem C1_get_expired {α : Type} (s : Store α) (k : String) (e : Entry α)
    (tid : Nat) (tmo : Timeout) (now : Int)
    (hk : s.kv k = some e) (ht : e.timeout = some tid)
    (hto : s.touts[tid]? = some tmo) (hex : now > tmo.expiresAt) :
    (tmo.isSliding = true ∧ 0 < tmo.expiresAfter →
      (get s k now).1 = (some e.value, true) ∧
      (get s k now).2.2 = [] ∧
      (get s k now).2.1.kv k = some e ∧
      (get s k now).2.1.touts[tid]? =
        some { tmo with expiresAt := now + tmo.expiresAfter }) ∧
    ((tmo.isSliding = false ∨ tmo.expiresAfter ≤ 0) →
      (get s k now).1 = (none, false) ∧
      (get s k now).2.1.kv k = none ∧
      (get s k now).2.2 = [(k, e.value)] ∧
      (get s k now).2.1.touts = s.touts) := by
  have hlt : tid < s.touts.length := by
    have := List.getElem?_eq_some.mp hto
    exact this.1
  have hval : s.touts[tid] = tmo := (List.getElem?_eq_some.mp hto).2
  have hta : toutAt s.touts tid = tmo := by rw [toutAt, hto]; rfl
  constructor
  · rintro ⟨hs, hp⟩
    have hsl : slide s.touts (some tid) now
        = s.touts.set tid { tmo with expiresAt := now + tmo.expiresAfter } := by
      simp [slide, hto, hval, hs, show ¬ tmo.expiresAfter ≤ 0 by omega]
    have hgetset : (s.touts.set tid { tmo with expiresAt := now + tmo.expiresAfter })[tid]?
        = some { tmo with expiresAt := now + tmo.expiresAfter } := by
      rw [List.getElem?_set, if_pos rfl, if_pos hlt]
    have hexp : expiredB (slide s.touts (some tid) now) (some tid) now = false := by
      rw [hsl]
      simp only [expiredB, hgetset]
      simp only [decide_eq_false_iff_not]
      omega
    have hget : get s k now
        = ((some e.value, true), { s with touts := slide s.touts (some tid) now }, []) := by
      simp only [get, hk, ht]
      rw [hexp]
      rfl
    refine ⟨by rw [hget], by rw [hget], by rw [hget]; exact hk, ?_⟩
    rw [hget]
    dsimp only
    rw [hsl, hgetset]
  · intro hns
    have hsl : slide s.touts (some tid) now = s.touts := by
      rcases hns with hns | hns
      · simp [slide, hto, hval, hns]
      · simp [slide, hto, hval, hns]
    have hexp : expiredB (slide s.touts (some tid) now) (some tid) now = true := by
      rw [hsl]
      simp only [expiredB, hto, decide_eq_true_eq]
      exact hex
    have hget : get s k now
        = ((none, false),
            { s with touts := slide s.touts (some tid) now, kv := merase s.kv k },
            [(k, e.value)]) := by
      simp only [get, hk, ht]
      rw [hexp]
      rfl
    refine ⟨by rw [hget], by rw [hget]; simp [merase], by rw [hget], ?_⟩
    rw [hget]
    dsimp only
    exact hsl

/-- Witness for the amended C1 at a concrete input: the sliding branch of
`sC1` — the descriptor expired at 10, `Get` at 20 still hits and renews it
to 30. -/
theorem C1_get_expired_witness :
    (get sC1 "a" 20).1 = (some 1, true) ∧
    (get sC1 "a" 20).2.1.touts[0]? = some ⟨30, 10, true, "a"⟩ := by
  have h := (C1_get_expired sC1 "a" ⟨some 0, 1⟩ 0 ⟨10, 10, true, "a"⟩ 20
    rfl rfl rfl (by decide)).1 ⟨rfl, by decide⟩
  exact ⟨h.1, h.2.2.2⟩

/-- C2 counterexample: in `sC2` the table's live entry for `"a"` is
`⟨none, 2⟩` — it holds NO descriptor, so it is unexpired forever — while
the heap still holds the stale descriptor 0 of the overwritten first put.
The claim says the drain must discard such a stale node without removing
any table entry and without recording an expiration event.  The code
(src/tinykv.go lines 826-840) checks only key presence, not descriptor
identity: the drain step at instant 20 removes the live entry and records
`("a", 2)` as an expiration event. -/
theorem C2_counterexample :
    sC2.kv "a" = some ⟨none, 2⟩ ∧
    sC2.heap = [0] ∧
    sC2.touts = [⟨10, 10, false, "a"⟩] ∧
    (expireFunc sC2 20).store.kv "a" = none ∧
    (expireFunc sC2 20).batch = [("a", 2)] := by
  decide

/-- C2 (amended): during the drain, a heap node whose KEY is absent from
the table is indeed discarded without removing any table entry and without
recording an expiration event — if every heap node refers to an absent key,
a whole tick leaves the table untouched and schedules nothing.  But no
descriptor-identity check is performed: when the node's key is still
present, an expired stale node makes the scheduler remove the key's current
table entry and record an expiration event with the entry's current value,
even if the table's own live descriptor differs from the node's and is
unexpired or absent (see `C2_counterexample`). -/
theorem C2_stale_by_absence_discarded {α : Type} (s : Store α) (now : Int)
    (habs : ∀ tid ∈ s.heap, s.kv (toutAt s.touts tid).key = none) :
    (expireFunc s now).batch = [] ∧ (expireFunc s now).store.kv = s.kv := by
  unfold expireFunc
  split
  · exact ⟨rfl, rfl⟩
  · dsimp only
    have hd := expireDrain_absent s.touts s.kv now s.heap.length s.heap [] 0 (le_refl _) habs
    exact ⟨hd, by rw [hd]; rfl⟩

/-- Witness for the amended C2 at a concrete input: a heap whose single
node refers to the absent key `"gone"` — the tick removes nothing and
schedules nothing. -/
theorem C2_stale_by_absence_discarded_witness :
    (expireFunc sC2w 5).batch = [] ∧ (expireFunc sC2w 5).store.kv "gone" = none := by
  have h := C2_stale_by_absence_discarded sC2w 5 (by decide)
  exact ⟨h.1, by rw [h.2]; rfl⟩

/-- C4: a successful CAS on a key with an existing table entry replaces the
entry's value in place and preserves its existing timeout descriptor — the
table keeps the very same descriptor id, which is renewed via `slide` (so a
sliding descriptor gets its clock renewed, a non-sliding one is untouched).
Any `ExpiresAfter`/`IsSliding` options supplied to that CAS are not applied
to the entry: the stored timeout field is the old entry's, and when a
positive `ExpiresAfter` was supplied the freshly allocated descriptor id is
provably not the one the entry keeps. -/
theorem C4_cas_preserves_ttl {α : Type} (s : Store α) (k : String) (v : α)
    (opts : List (PutOption α)) (now : Int) (pred : Option α → Bool → Bool)
    (o : Entry α)
    (hc : (foldOpts opts).cas = some pred)
    (hk : s.kv k = some o)
    (hp : pred (some o.value) true = true)
    (hwf : ∀ tid, o.timeout = some tid → tid < s.touts.length) :
    (put s k v opts now).1 = Except.ok () ∧
    (put s k v opts now).2.kv k = some ⟨o.timeout, v⟩ ∧
    (∀ q, q ≠ k → (put s k v opts now).2.kv q = s.kv q) ∧
    (∀ tid, o.timeout = some tid →
      (put s k v opts now).2.touts[tid]? = some (slideOne (toutAt s.touts tid) now)) ∧
    (0 < (foldOpts opts).expiresAfter → o.timeout ≠ some s.touts.length) := by
  rw [put_cas s k v opts now pred hc]
  by_cases hpos : 0 < (foldOpts opts).expiresAfter
  · rw [if_pos hpos]
    rw [casStep_found2 _ _ _ _ _ _ _ o hk hp]
    refine ⟨rfl, by simp [mupdate], ?_, ?_, ?_⟩
    · intro q hq
      simp [mupdate, hq]
    · intro tid htid
      have hlt : tid < s.touts.length := hwf tid htid
      have hlt2 : tid < (s.touts ++
          [newTimeout k (foldOpts opts).expiresAfter (foldOpts opts).isSliding now]).length := by
        simp; omega
      dsimp only
      rw [htid, slide_getElem _ _ _ hlt2, toutAt_append _ _ _ hlt]
    · intro _ hcontra
      exact absurd (hwf _ hcontra) (by omega)
  · rw [if_neg hpos]
    rw [casStep_found _ _ _ _ _ o hk hp]
    refine ⟨rfl, by simp [mupdate], ?_, ?_, fun hcontra => absurd hcontra hpos⟩
    · intro q hq
      simp [mupdate, hq]
    · intro tid htid
      have hlt : tid < s.touts.length := hwf tid htid
      dsimp only
      rw [htid, slide_getElem _ _ _ hlt]

/-- Witness for C4 at a concrete input: CAS on the existing sliding entry
of `sC4` supplies `ExpiresAfter 99`, which is ignored — the entry keeps
descriptor 0, now slid to expire at 14 (= 4 + its own 10-unit TTL), and the
stored value becomes 5. -/
theorem C4_cas_preserves_ttl_witness :
    (put sC4 "a" 5 [ExpiresAfter 99, CAS (fun _ _ => true)] 4).2.kv "a" = some ⟨some 0, 5⟩ ∧
    (put sC4 "a" 5 [ExpiresAfter 99, CAS (fun _ _ => true)] 4).2.touts[0]? =
      some ⟨14, 10, true, "a"⟩ := by
  have h := C4_cas_preserves_ttl sC4 "a" 5 [ExpiresAfter 99, CAS (fun _ _ => true)] 4
    (fun _ _ => true) ⟨some 0, 1⟩ rfl rfl rfl
    (by intro tid htid; injection htid with htid; subst htid; decide)
  refine ⟨h.2.1, ?_⟩
  rw [h.2.2.2.1 0 rfl]
  decide

/-- C5: a CAS whose predicate rejects returns the CAS-condition error and
leaves the table mapping unchanged — the whole key-to-entry map is equal to
the original, so the prior entry (if any) keeps its value and its
descriptor id, and no entry is created for an absent key; moreover every
pre-existing arena descriptor is unchanged (the fresh descriptor, if one
was allocated by the options, is appended after them). -/
theorem C5_cas_fail_table_unchanged {α : Type} (s : Store α) (k : String) (v : α)
    (opts : List (PutOption α)) (now : Int) (pred : Option α → Bool → Bool)
    (hc : (foldOpts opts).cas = some pred)
    (hp : pred ((s.kv k).map Entry.value) (s.kv k).isSome = false) :
    (put s k v opts now).1 = Except.error KvErr.casCond ∧
    (put s k v opts now).2.kv = s.kv ∧
    (∀ i, i < s.touts.length → (put s k v opts now).2.touts[i]? = s.touts[i]?) := by
  rw [put_cas s k v opts now pred hc]
  by_cases hpos : 0 < (foldOpts opts).expiresAfter
  · rw [if_pos hpos]
    rw [casStep_fail2 _ _ _ _ _ _ _ hp]
    refine ⟨rfl, rfl, ?_⟩
    intro i hi
    dsimp only
    rw [List.getElem?_append, if_pos hi]
  · rw [if_neg hpos]
    rw [casStep_fail _ _ _ _ _ hp]
    exact ⟨rfl, rfl, fun i _ => rfl⟩

/-- Witness for C5 at a concrete input: a rejecting CAS on the present key
`"a"` of `sC5` errors out and leaves the entry's value, descriptor id and
descriptor content unchanged. -/
theorem C5_cas_fail_table_unchanged_witness :
    (put sC5 "a" 9 [ExpiresAfter 50, CAS (fun _ _ => false)] 0).1
      = Except.error KvErr.casCond ∧
    (put sC5 "a" 9 [ExpiresAfter 50, CAS (fun _ _ => false)] 0).2.kv "a"
      = some ⟨some 0, 1⟩ ∧
    (put sC5 "a" 9 [ExpiresAfter 50, CAS (fun _ _ => false)] 0).2.touts[0]?
      = some ⟨10, 10, false, "a"⟩ := by
  have h := C5_cas_fail_table_unchanged sC5 "a" 9 [ExpiresAfter 50, CAS (fun _ _ => false)] 0
    (fun _ _ => false) rfl rfl
  refine ⟨h.1, ?_, ?_⟩
  · rw [h.2.1]
    decide
  · rw [h.2.2 0 (by decide)]
    decide

/-- C6: a CAS on a key with no current table entry invokes the predicate
with the distinguishable not-found signal — nil current value and
found=false, so the outcome is decided exactly by `pred none false`, not by
a fault.  A rejecting predicate errors out with the table unchanged; an
accepting one creates exactly one fresh entry for the key (every other key
is untouched) carrying the supplied expiration options: the entry points at
the freshly allocated descriptor iff a positive `ExpiresAfter` was
supplied, and that descriptor carries the supplied duration and sliding
flag. -/
theorem C6_cas_absent_key {α : Type} (s : Store α) (k : String) (v : α)
    (opts : List (PutOption α)) (now : Int) (pred : Option α → Bool → Bool)
    (hc : (foldOpts opts).cas = some pred)
    (hk : s.kv k = none) :
    (pred none false = false →
      (put s k v opts now).1 = Except.error KvErr.casCond ∧
      (put s k v opts now).2.kv = s.kv) ∧
    (pred none false = true →
      (put s k v opts now).1 = Except.ok () ∧
      (put s k v opts now).2.kv k =
        some ⟨if 0 < (foldOpts opts).expiresAfter then some s.touts.length else none, v⟩ ∧
      (∀ q, q ≠ k → (put s k v opts now).2.kv q = s.kv q) ∧
      (0 < (foldOpts opts).expiresAfter →
        (put s k v opts now).2.touts[s.touts.length]? =
          some (newTimeout k (foldOpts opts).expiresAfter (foldOpts opts).isSliding now))) := by
  rw [put_cas s k v opts now pred hc]
  have hsig : ∀ (s1 : Store α), s1.kv = s.kv →
      ((s1.kv k).map Entry.value = none ∧ (s1.kv k).isSome = false) := by
    intro s1 h1
    rw [h1, hk]
    exact ⟨rfl, rfl⟩
  constructor
  · intro hpred
    by_cases hpos : 0 < (foldOpts opts).expiresAfter
    · rw [if_pos hpos, casStep_fail2 _ _ _ _ _ _ _ (by rw [hk]; exact hpred)]
      exact ⟨rfl, rfl⟩
    · rw [if_neg hpos, casStep_fail _ _ _ _ _ (by rw [hk]; exact hpred)]
      exact ⟨rfl, rfl⟩
  · intro hpred
    by_cases hpos : 0 < (foldOpts opts).expiresAfter
    · rw [if_pos hpos, casStep_absent2 _ _ _ _ _ _ _ hk hpred]
      refine ⟨rfl, by simp [mupdate, if_pos hpos], ?_, ?_⟩
      · intro q hq
        simp [mupdate, hq]
      · intro _
        dsimp only
        rw [List.getElem?_append, if_neg (by omega)]
        simp
    · rw [if_neg hpos, casStep_absent _ _ _ _ _ hk hpred]
      refine ⟨rfl, by simp [mupdate, if_neg hpos], ?_, fun hcontra => absurd hcontra hpos⟩
      intro q hq
      simp [mupdate, hq]

/-- Witness for C6 at a concrete input: an insert-if-absent CAS
(`fun _ found => !found`) on the empty store creates exactly the fresh
sliding entry with its supplied 10-unit TTL descriptor. -/
theorem C6_cas_absent_key_witness :
    (put (empty Int) "n" 3 [ExpiresAfter 10, IsSliding true,
      CAS (fun _ found => !found)] 0).2.kv "n" = some ⟨some 0, 3⟩ ∧
    (put (empty Int) "n" 3 [ExpiresAfter 10, IsSliding true,
      CAS (fun _ found => !found)] 0).2.touts[0]? = some ⟨10, 10, true, "n"⟩ := by
  have h := (C6_cas_absent_key (empty Int) "n" 3
    [ExpiresAfter 10, IsSliding true, CAS (fun _ found => !found)] 0
    (fun _ found => !found) rfl rfl).2 rfl
  exact ⟨h.2.1, h.2.2.2 (by decide)⟩


/-- C7 counterexample: in `sC7` both keys have been deleted, so the heap
holds only stale nodes and there is no pending entry at all; the claim says
the sleep interval after a tick must then equal the configured base
interval (here 100).  Instead the tick at instant 100 pops one stale node,
exhausts the iteration counter, and recomputes the hint from the remaining
stale node in the final array slot: that node is already expired, so its
raw `expiresAfter` (10) is used, and the loop adopts 10 as the next sleep
interval. -/
theorem C7_counterexample :
    sC7.kv "k1" = none ∧ sC7.kv "k2" = none ∧
    (expireLoopTick sC7 100 100 100).2 = 10 := by
  decide

/-- C7 (amended): after a tick the sleep interval is overwritten with the
drain's hint `|v|` only when `0 < |v| < base`; otherwise it KEEPS ITS
PREVIOUS VALUE (initially the base) rather than resetting to the base.  In
particular, when the drain stops at a live, strictly unexpired heap root
whose remaining time is positive and below the base, the new interval is
exactly that remaining time — non-negative and never exceeding the base.
The hint can, however, also originate from the stale final-array-slot node
when the counter is exhausted (see `C7_counterexample`). -/
theorem C7_adaptive_interval {α : Type} (s : Store α) (base old now : Int)
    (r0 : Nat) (rest : List Nat) (e : Entry α)
    (hh : s.heap = r0 :: rest)
    (hk : s.kv (toutAt s.touts r0).key = some e)
    (hu : now < (toutAt s.touts r0).expiresAt)
    (hb : (toutAt s.touts r0).expiresAt - now < base) :
    (expireLoopTick s base old now).2 = (toutAt s.touts r0).expiresAt - now ∧
    0 < (expireLoopTick s base old now).2 ∧
    (expireLoopTick s base old now).2 ≤ base ∧
    (∀ v : Int, ¬ (0 < (if v < 0 then -v else v) ∧ (if v < 0 then -v else v) < base) →
      nextInterval base old v = old) := by
  have hne : ¬ now > (toutAt s.touts r0).expiresAt := by omega
  have hnneg : ¬ ((toutAt s.touts r0).expiresAt - now < 0) := by omega
  have hdrain : expireDrain s.touts s.kv s.heap.length s.heap [] 0 now
      = (s.heap, [], (toutAt s.touts r0).expiresAt - now, 1) := by
    rw [hh]
    simp only [List.length_cons]
    rw [expireDrain]
    simp only [List.getD_cons_zero, hk]
    rw [if_neg (show ¬ ((r0 :: rest).length = 0) by simp),
      if_neg (show ¬ ((r0 :: rest).length ≤ 0) by simp), if_neg hne, if_neg hnneg]
  have hfe : expireFunc s now
      = ⟨{ s with heap := s.heap, kv := s.kv },
          (toutAt s.touts r0).expiresAt - now, [], 1⟩ := by
    unfold expireFunc
    rw [if_neg (by rw [hh]; simp)]
    dsimp only
    rw [hdrain]
    dsimp only
    rw [if_neg (by intro hand; omega)]
    rfl
  have htick : (expireLoopTick s base old now).2
      = nextInterval base old ((toutAt s.touts r0).expiresAt - now) := by
    unfold expireLoopTick
    rw [hfe]
  have hval : nextInterval base old ((toutAt s.touts r0).expiresAt - now)
      = (toutAt s.touts r0).expiresAt - now := by
    unfold nextInterval
    rw [if_neg hnneg, if_pos ⟨by omega, hb⟩]
  refine ⟨by rw [htick, hval], by rw [htick, hval]; omega, by rw [htick, hval]; omega, ?_⟩
  intro v hv
  unfold nextInterval
  rw [if_neg hv]

/-- Witness for the amended C7 at a concrete input: in `sC7w` the root's
live descriptor expires at 50; a tick at instant 20 with base 100 adopts
the remaining time 30 as the next sleep interval. -/
theorem C7_adaptive_interval_witness :
    (expireLoopTick sC7w 100 100 20).2 = 30 := by
  have h := C7_adaptive_interval sC7w 100 100 20 0 [] ⟨some 0, 1⟩
    rfl rfl (by decide) (by decide)
  rw [h.1]
  decide

/-- C9: a `Put` carrying both a positive `ExpiresAfter` option and a CAS
option pushes the freshly allocated descriptor (arena id
`s.touts.length`) onto the heap before the predicate is consulted: the
resulting heap contains the fresh node and has grown by exactly one, in
every outcome.  When the predicate rejects, the operation errors and the
table is unchanged — but the heap still gained the node; when it accepts
over an existing entry, the table keeps the old descriptor and the fresh
pushed one is left in the heap unattached to any table entry. -/
theorem C9_cas_pushes_before_predicate {α : Type} (s : Store α) (k : String) (v : α)
    (opts : List (PutOption α)) (now : Int) (pred : Option α → Bool → Bool)
    (o : Entry α)
    (hc : (foldOpts opts).cas = some pred)
    (hpos : 0 < (foldOpts opts).expiresAfter)
    (hk : s.kv k = some o)
    (hwf : ∀ tid, o.timeout = some tid → tid < s.touts.length) :
    s.touts.length ∈ (put s k v opts now).2.heap ∧
    (put s k v opts now).2.heap.length = s.heap.length + 1 ∧
    (pred (some o.value) true = false →
      (put s k v opts now).1 = Except.error KvErr.casCond ∧
      (put s k v opts now).2.kv = s.kv) ∧
    (pred (some o.value) true = true →
      (put s k v opts now).2.kv k = some ⟨o.timeout, v⟩ ∧
      o.timeout ≠ some s.touts.length) := by
  rw [put_cas s k v opts now pred hc, if_pos hpos]
  refine ⟨?_, ?_, ?_, ?_⟩
  · rw [casStep_heap]
    exact self_mem_timeheapPush _ _ _
  · rw [casStep_heap]
    exact timeheapPush_length _ _ _
  · intro hpf
    rw [casStep_fail2 _ _ _ _ _ _ _ (by rw [hk]; exact hpf)]
    exact ⟨rfl, rfl⟩
  · intro hpt
    rw [casStep_found2 _ _ _ _ _ _ _ o hk hpt]
    refine ⟨by simp [mupdate], ?_⟩
    intro hcontra
    exact absurd (hwf _ hcontra) (by omega)

/-- Witness for C9 at a concrete input: a rejecting CAS with
`ExpiresAfter 30` on the present key `"a"` of `sC9` errors out leaving the
table as it was, yet the heap grew from `[0]` to contain the fresh
descriptor id 1. -/
theorem C9_cas_pushes_before_predicate_witness :
    (1 : Nat) ∈ (put sC9 "a" 9 [ExpiresAfter 30, CAS (fun _ _ => false)] 0).2.heap ∧
    (put sC9 "a" 9 [ExpiresAfter 30, CAS (fun _ _ => false)] 0).2.heap.length = 2 ∧
    (put sC9 "a" 9 [ExpiresAfter 30, CAS (fun _ _ => false)] 0).1
      = Except.error KvErr.casCond := by
  have h := C9_cas_pushes_before_predicate sC9 "a" 9
    [ExpiresAfter 30, CAS (fun _ _ => false)] 0 (fun _ _ => false) ⟨some 0, 1⟩
    rfl (by decide) rfl
    (by intro tid htid; injection htid with htid; subst htid; decide)
  exact ⟨h.1, h.2.1, (h.2.2.1 rfl).1⟩


end TinyKV
